import Mathlib

/-!
Verification of `queue_model/simulate.py` (polling-place / hospital queue
simulator).  The Python module is embedded shallowly:

* `Patient` mirrors the `Patient` class (`arrival_time`, `voting_duration`,
  and the initially-`None` derived fields `start_time`, `departure_time`,
  modelled as `Option ℚ`).
* `Hospital` mirrors the `Hospital` class (configuration record).
* `Bed` mirrors the `Bed` wrapper around `queue.PriorityQueue(num_booths)`.
  The priority queue is represented by its sorted list of pending departure
  times together with `maxsize`; `put(block=False)` and `get(block=False)`
  become `Option`-returning operations that fail exactly when CPython's
  `queue.Full` / `queue.Empty` would be raised
  (`full()` is `0 < maxsize ≤ qsize`).
* The external random source (`random.seed` plus
  `util.gen_poisson_voter_parameters`) is out of scope per the design and is
  supplied as a deterministic stream `draws : ℕ → ℕ → ℚ × ℚ`, mapping a seed
  and a draw index to the pair (inter-arrival gap, voting duration).
* Numbers are modelled as exact rationals.

All failure paths (queue errors, `ZeroDivisionError`, `TypeError` on `None`
arithmetic, `IndexError`) are collapsed into `none` of the ambient `Option`.
-/

/-- The `Patient` record: arrival time and service duration drawn at
generation time; `start_time` and `departure_time` start as `None` and are
filled in by the simulation. -/
structure Patient where
  arrival_time : ℚ
  voting_duration : ℚ
  start_time : Option ℚ
  departure_time : Option ℚ
deriving Repr, DecidableEq

/-- Constructor `Patient(arrival_time, voting_duration)`: it leaves
`start_time` and `departure_time` as `None`. -/
def Patient.mk0 (arrival_time voting_duration : ℚ) : Patient :=
  ⟨arrival_time, voting_duration, none, none⟩

/-- The `Hospital` configuration record.  The two rate fields parametrise the
external random source and are not read by the embedded code (the draws are
supplied directly). -/
structure Hospital where
  name : String
  hours_open : ℕ
  max_num_voters : ℕ
  arrival_rate : ℚ
  voting_duration_rate : ℚ

/-- Method `Hospital.next_voter`: the next patient arrives `gap` minutes after the
previous one and carries a fresh voting duration; `draw = (gap,
voting_duration)` stands for the external
`util.gen_poisson_voter_parameters` result. -/
def Hospital.next_voter (_h : Hospital) (draw : ℚ × ℚ) (prev_voter : Patient) :
    Patient :=
  Patient.mk0 (prev_voter.arrival_time + draw.1) draw.2

/-- The `Bed` wrapper around `queue.PriorityQueue(num_booths)`: the multiset
of pending departure times (kept sorted ascending, matching the heap's
extract-min behaviour) plus the queue's `maxsize`. -/
structure Bed where
  bed_queue : List ℚ
  maxsize : ℕ
deriving Repr, DecidableEq

/-- Method `Bed.check_full`, i.e. `PriorityQueue.full()`:
`0 < maxsize and maxsize <= qsize`. -/
def Bed.check_full (b : Bed) : Bool :=
  decide (0 < b.maxsize ∧ b.maxsize ≤ b.bed_queue.length)

/-- Method `Bed.add_voter_dep`, i.e. `put(voter_dep, block=False)`: raises
`queue.Full` (here `none`) when the queue is full, otherwise inserts the
departure time into the priority structure. -/
def Bed.add_voter_dep (b : Bed) (voter_dep : ℚ) : Option Bed :=
  if b.check_full then none
  else some ⟨b.bed_queue.orderedInsert (· ≤ ·) voter_dep, b.maxsize⟩

/-- Method `Bed.get_remove_voter_dep`, i.e. `get(block=False)`: raises `queue.Empty`
(here `none`) on an empty queue, otherwise removes and returns the minimum
pending departure time. -/
def Bed.get_remove_voter_dep (b : Bed) : Option (ℚ × Bed) :=
  match b.bed_queue with
  | [] => none
  | d :: rest => some (d, ⟨rest, b.maxsize⟩)

/-- One iteration of the loop body of `Hospital.simulate`: generate
`new_voter` from `base_voter`, then either seat it immediately (booths not
full) or pop the earliest departure and seat it at
`max(arrival_time, min_departure_time)`; in both branches the new departure
time is pushed into the pool. -/
def Hospital.simStep (h : Hospital) (draw : ℚ × ℚ) (base_voter : Patient)
    (all_booths : Bed) : Option (Patient × Bed) :=
  let new_voter := h.next_voter draw base_voter
  if all_booths.check_full then do
    let popped ← all_booths.get_remove_voter_dep
    let min_departure_time := popped.1
    let start := if new_voter.arrival_time > min_departure_time then
        new_voter.arrival_time
      else min_departure_time
    let nv : Patient := { new_voter with
      start_time := some start,
      departure_time := some (start + new_voter.voting_duration) }
    let booths2 ← popped.2.add_voter_dep (start + new_voter.voting_duration)
    some (nv, booths2)
  else do
    let start := new_voter.arrival_time
    let nv : Patient := { new_voter with
      start_time := some start,
      departure_time := some (start + new_voter.voting_duration) }
    let booths2 ← all_booths.add_voter_dep (start + new_voter.voting_duration)
    some (nv, booths2)

/-- The loop of `Hospital.simulate`, recursing over the remaining draws and
carrying `base_voter`, the booth pool and the accumulated `voter_list`.  A
patient is appended iff `arrival_time <= hours_open * 60`; the generated
patient becomes the basis for the next generation in either case. -/
def Hospital.simAux (h : Hospital) :
    List (ℚ × ℚ) → Patient → Bed → List Patient → Option (List Patient)
  | [], _, _, voter_list => some voter_list
  | draw :: rest, base_voter, all_booths, voter_list => do
    let step ← h.simStep draw base_voter all_booths
    let new_voter := step.1
    let voter_list2 :=
      if new_voter.arrival_time ≤ (h.hours_open : ℚ) * 60 then
        voter_list ++ [new_voter]
      else voter_list
    h.simAux rest new_voter step.2 voter_list2

/-- Method `Hospital.simulate(seed, num_booths)`: seeds the random source (selects
the draw stream `draws seed`), starts from the base patient `Patient(0, 0)`
and an empty pool of capacity `num_booths`, and runs exactly
`max_num_voters` iterations. -/
def Hospital.simulate (h : Hospital) (draws : ℕ → ℕ → ℚ × ℚ)
    (seed num_booths : ℕ) : Option (List Patient) :=
  h.simAux ((List.range h.max_num_voters).map (draws seed))
    (Patient.mk0 0 0) ⟨[], num_booths⟩ []

/-- The successive booth-pool states of a run: the pool before the first
iteration and after each iteration (truncated if an iteration fails). -/
def Hospital.simStates (h : Hospital) :
    List (ℚ × ℚ) → Patient → Bed → List Bed
  | [], _, b => [b]
  | draw :: rest, base_voter, b =>
    b :: (match h.simStep draw base_voter b with
          | none => []
          | some step => h.simStates rest step.1 step.2)

/-- The per-trial wait list `[v.start_time - v.arrival_time for v in
patient_list]`: fails (`TypeError` in Python) if some `start_time` is still
`None`. -/
def collect_waits : List Patient → Option (List ℚ)
  | [] => some []
  | v :: rest => do
    let s ← v.start_time
    let ws ← collect_waits rest
    some ((s - v.arrival_time) :: ws)

/-- One trial's average wait:
`sum([v.start_time - v.arrival_time for v in patient_list]) /
len(patient_list)`; dividing by the length of an empty list is Python's
`ZeroDivisionError`, here `none`. -/
def trial_average (patient_list : List Patient) : Option ℚ := do
  let waits ← collect_waits patient_list
  if patient_list.length = 0 then none
  else some (waits.sum / (patient_list.length : ℚ))

/-- The trial loop of `find_avg_wait_time`: runs the given number of
remaining trials, incrementing the seed by one after each trial, and
accumulates the trial averages in order. -/
def trialsAux (draws : ℕ → ℕ → ℚ × ℚ) (hospital_object : Hospital)
    (num_beds : ℕ) : ℕ → ℕ → List ℚ → Option (List ℚ)
  | 0, _, acc => some acc
  | n + 1, seed, acc => do
    let patient_list ← hospital_object.simulate draws seed num_beds
    let average_one_trial ← trial_average patient_list
    trialsAux draws hospital_object num_beds n (seed + 1)
      (acc ++ [average_one_trial])

/-- Function `find_avg_wait_time(hospital, num_beds, ntrials, initial_seed)`: runs
`ntrials` simulations (trial `t` reseeded with `initial_seed + t` via the
in-loop increment), sorts the trial averages ascending and returns the entry
at index `ntrials // 2`; an out-of-range index is Python's `IndexError`,
here `none`.  The Python function receives the configuration as a dictionary
and repackages it into a `Hospital` object; the dictionary fields map
one-to-one onto the `Hospital` record, so the record is taken directly. -/
def find_avg_wait_time (draws : ℕ → ℕ → ℚ × ℚ) (hospital : Hospital)
    (num_beds ntrials initial_seed : ℕ) : Option ℚ := do
  let trial_averages ← trialsAux draws hospital num_beds ntrials initial_seed []
  (trial_averages.insertionSort (· ≤ ·))[ntrials / 2]?

/-- The search loop of `find_number_of_booths` over the remaining bed
counts: `f` is the per-level trial runner (already fixed to the starting
seed).  Returns the first `(num_beds, some wait)` with `wait <
target_wait_time`, or the sentinel `(0, none)` when the list is exhausted;
an exception from `f` propagates as the outer `none`. -/
def boothsLoop (f : ℕ → Option ℚ) (target_wait_time : ℚ) :
    List ℕ → Option (ℕ × Option ℚ)
  | [] => some (0, none)
  | num_beds :: rest => do
    let avg_wait_time ← f num_beds
    if avg_wait_time < target_wait_time then some (num_beds, some avg_wait_time)
    else boothsLoop f target_wait_time rest

/-- Function `find_number_of_booths(hospital, target_wait_time, max_num_beds,
ntrials, seed)`: sweeps `num_beds` over `range(1, max_num_beds + 1)`,
calling `find_avg_wait_time` with the same starting `seed` at every level. -/
def find_number_of_booths (draws : ℕ → ℕ → ℚ × ℚ) (hospital : Hospital)
    (target_wait_time : ℚ) (max_num_beds ntrials seed : ℕ) :
    Option (ℕ × Option ℚ) :=
  boothsLoop
    (fun num_beds => find_avg_wait_time draws hospital num_beds ntrials seed)
    target_wait_time (List.range' 1 max_num_beds)

/-- The invariant maintained on the booth pool throughout a run: the pending
departure times are sorted ascending (heap order), and when the capacity is
positive the occupancy never exceeds it. -/
def BedInv (b : Bed) : Prop :=
  b.bed_queue.Sorted (· ≤ ·) ∧ (0 < b.maxsize → b.bed_queue.length ≤ b.maxsize)

/-- The raw arrival sequence the generator would produce from the given
draws: each patient is generated from the previous one, with no start or
departure time assigned. -/
def Hospital.generated (h : Hospital) : List (ℚ × ℚ) → Patient → List Patient
  | [], _ => []
  | draw :: rest, prev =>
    h.next_voter draw prev :: h.generated rest (h.next_voter draw prev)

/-- The spec-side per-trial statistic: the mean over the recorded arrivals of
`start_time - arrival_time` (start times being assigned, `getD 0` reads the
assigned value). -/
def mean_wait (patient_list : List Patient) : ℚ :=
  (patient_list.map (fun p => p.start_time.getD 0 - p.arrival_time)).sum /
    (patient_list.length : ℚ)

/-- Example draw stream: every draw is a zero gap and a zero duration. -/
def exDraws0 : ℕ → ℕ → ℚ × ℚ := fun _ _ => (0, 0)

/-- Example draw stream: every draw is a one-minute gap and a zero
duration. -/
def exDraws1 : ℕ → ℕ → ℚ × ℚ := fun _ _ => (1, 0)

/-- Example configuration: open one hour, one arrival. -/
def exHospital : Hospital := ⟨"clinic", 1, 1, 1, 1⟩

/-- Example configuration with a zero-length operating window. -/
def exHospital0 : Hospital := ⟨"clinic", 0, 1, 1, 1⟩

theorem Bed.get_remove_eq (b : Bed) (d : ℚ) (b2 : Bed)
    (hget : b.get_remove_voter_dep = some (d, b2)) :
    b.bed_queue = d :: b2.bed_queue ∧ b2.maxsize = b.maxsize := by
  rcases b with ⟨q, m⟩
  cases q with
  | nil => simp [Bed.get_remove_voter_dep] at hget
  | cons a rest =>
    simp only [Bed.get_remove_voter_dep, Option.some.injEq, Prod.mk.injEq]
      at hget
    obtain ⟨rfl, rfl⟩ := hget
    exact ⟨rfl, rfl⟩

/-- On a sorted pool, retrieval yields a minimum of the pending departure
times. -/
theorem Bed.get_remove_is_min (b : Bed) (hs : b.bed_queue.Sorted (· ≤ ·))
    (d : ℚ) (b2 : Bed) (hget : b.get_remove_voter_dep = some (d, b2)) :
    ∀ x ∈ b.bed_queue, d ≤ x := by
  obtain ⟨hq, -⟩ := b.get_remove_eq d b2 hget
  intro x hx
  rw [hq] at hs hx
  rcases List.mem_cons.mp hx with rfl | hx
  · exact le_refl x
  · exact List.rel_of_sorted_cons hs x hx

/-- Master lemma about one loop iteration: under the pool invariant the step
never fails, preserves the invariant and the capacity, grows the pool by at
most one entry, generates the arrival from the previous one, and seats it no
earlier than its arrival (exactly at its arrival when the pool was not
full). -/
theorem Hospital.simStep_spec (h : Hospital) (draw : ℚ × ℚ)
    (base_voter : Patient) (b : Bed) (hinv : BedInv b) :
    ∃ nv b2, h.simStep draw base_voter b = some (nv, b2) ∧
      BedInv b2 ∧ b2.maxsize = b.maxsize ∧
      b2.bed_queue.length ≤ b.bed_queue.length + 1 ∧
      nv.arrival_time = base_voter.arrival_time + draw.1 ∧
      nv.voting_duration = draw.2 ∧
      ∃ s, nv.start_time = some s ∧ nv.arrival_time ≤ s ∧
        nv.departure_time = some (s + nv.voting_duration) ∧
        (b.check_full = false → s = nv.arrival_time) := by
  obtain ⟨hsort, hlen⟩ := hinv
  by_cases hf : b.check_full = true
  · -- pool full: pop the earliest departure, seat at max(arrival, popped)
    have hfull : 0 < b.maxsize ∧ b.maxsize ≤ b.bed_queue.length := by
      simpa [Bed.check_full] using hf
    have hqlen : b.bed_queue.length = b.maxsize :=
      le_antisymm (hlen hfull.1) hfull.2
    obtain ⟨d, rest, hq⟩ : ∃ d rest, b.bed_queue = d :: rest := by
      cases hq2 : b.bed_queue with
      | nil =>
        exfalso
        have h1 := hfull.1
        rw [hq2] at hqlen
        simp at hqlen
        omega
      | cons d rest => exact ⟨d, rest, rfl⟩
    have hrest_sorted : rest.Sorted (· ≤ ·) := by
      rw [hq] at hsort
      exact hsort.of_cons
    have hrest_len : rest.length + 1 = b.maxsize := by
      rw [hq] at hqlen
      simpa using hqlen
    have hnotfull2 : Bed.check_full ⟨rest, b.maxsize⟩ = false := by
      simp only [Bed.check_full, decide_eq_false_iff_not, not_and, not_le]
      intro _
      omega
    simp only [Hospital.simStep, hf, if_true, Bed.get_remove_voter_dep, hq,
      Option.bind_eq_bind, Option.some_bind, Bed.add_voter_dep, hnotfull2,
      Bool.false_eq_true, if_false]
    refine ⟨_, _, rfl, ⟨?_, ?_⟩, rfl, ?_, rfl, rfl, ?_⟩
    · exact List.Sorted.orderedInsert _ _ hrest_sorted
    · intro _
      dsimp only
      rw [List.orderedInsert_length]
      omega
    · dsimp only
      rw [List.orderedInsert_length]
      simp
    · refine ⟨_, rfl, ?_, rfl, ?_⟩
      · show (h.next_voter draw base_voter).arrival_time ≤
          if (h.next_voter draw base_voter).arrival_time > d then
            (h.next_voter draw base_voter).arrival_time
          else d
        split
        · exact le_refl _
        · exact le_of_not_lt (by assumption)
      · intro hcontra
        exact absurd hcontra (by decide)
  · -- pool not full: seat immediately at the arrival time
    have hf2 : b.check_full = false := by
      simpa using hf
    have hnot : ¬ (0 < b.maxsize ∧ b.maxsize ≤ b.bed_queue.length) := by
      simpa [Bed.check_full] using hf2
    simp only [Hospital.simStep, hf2, Bool.false_eq_true, if_false,
      Bed.add_voter_dep, Option.bind_eq_bind, Option.some_bind]
    refine ⟨_, _, rfl, ⟨?_, ?_⟩, rfl, ?_, rfl, rfl, ?_⟩
    · exact List.Sorted.orderedInsert _ _ hsort
    · intro hm
      dsimp only
      rw [List.orderedInsert_length]
      have hnle : ¬ b.maxsize ≤ b.bed_queue.length := fun hc => hnot ⟨hm, hc⟩
      omega
    · dsimp only
      rw [List.orderedInsert_length]
    · exact ⟨_, rfl, le_refl _, rfl, fun _ => rfl⟩

/-- When the pool is not full the step takes the first branch: the arrival is
seated immediately and its departure time is inserted into the pool. -/
theorem Hospital.simStep_not_full (h : Hospital) (draw : ℚ × ℚ)
    (base_voter : Patient) (b : Bed) (hf : b.check_full = false) :
    h.simStep draw base_voter b =
      some (⟨base_voter.arrival_time + draw.1, draw.2,
             some (base_voter.arrival_time + draw.1),
             some (base_voter.arrival_time + draw.1 + draw.2)⟩,
            ⟨b.bed_queue.orderedInsert (· ≤ ·)
               (base_voter.arrival_time + draw.1 + draw.2), b.maxsize⟩) := by
  simp only [Hospital.simStep, hf, Bool.false_eq_true, if_false,
    Bed.add_voter_dep, Option.bind_eq_bind, Option.some_bind]
  rfl

/-- When the pool is full the step takes the second branch: it pops the head
`d` of the pending-departure queue, seats the arrival at
`max(arrival_time, d)` and inserts the new departure time. -/
theorem Hospital.simStep_full_eq (h : Hospital) (draw : ℚ × ℚ)
    (base_voter : Patient) (b : Bed) (d : ℚ) (rest : List ℚ)
    (hq : b.bed_queue = d :: rest) (hf : b.check_full = true)
    (hnf2 : Bed.check_full ⟨rest, b.maxsize⟩ = false) :
    h.simStep draw base_voter b =
      some (⟨base_voter.arrival_time + draw.1, draw.2,
             some (if base_voter.arrival_time + draw.1 > d then
                 base_voter.arrival_time + draw.1 else d),
             some ((if base_voter.arrival_time + draw.1 > d then
                 base_voter.arrival_time + draw.1 else d) + draw.2)⟩,
            ⟨rest.orderedInsert (· ≤ ·)
               ((if base_voter.arrival_time + draw.1 > d then
                 base_voter.arrival_time + draw.1 else d) + draw.2),
             b.maxsize⟩) := by
  simp only [Hospital.simStep, hf, if_true, Bed.get_remove_voter_dep, hq,
    Option.bind_eq_bind, Option.some_bind, Bed.add_voter_dep, hnf2,
    Bool.false_eq_true, if_false]
  rfl

/-- The run loop never fails under the pool invariant, and every patient it
appends has been seated no earlier than its arrival, with
`departure_time = start_time + voting_duration`. -/
theorem Hospital.simAux_spec (h : Hospital) :
    ∀ (draws : List (ℚ × ℚ)) (base_voter : Patient) (b : Bed)
      (acc : List Patient), BedInv b →
      ∃ res, h.simAux draws base_voter b acc = some res ∧
        ∀ p ∈ res, p ∈ acc ∨
          ∃ s, p.start_time = some s ∧ p.arrival_time ≤ s ∧
            p.departure_time = some (s + p.voting_duration)
  | [], _, _, acc, _ => ⟨acc, rfl, fun _ hp => Or.inl hp⟩
  | draw :: rest, base_voter, b, acc, hinv => by
    obtain ⟨nv, b2, hstep, hinv2, -, -, -, -, s, hst, hle, hdep, -⟩ :=
      h.simStep_spec draw base_voter b hinv
    obtain ⟨res, hres, hprop⟩ := h.simAux_spec rest nv b2
      (if nv.arrival_time ≤ (h.hours_open : ℚ) * 60 then acc ++ [nv] else acc)
      hinv2
    refine ⟨res, ?_, ?_⟩
    · simp only [Hospital.simAux, hstep, Option.bind_eq_bind, Option.some_bind]
      exact hres
    · intro p hp
      rcases hprop p hp with hmem | hgood
      · by_cases hwin : nv.arrival_time ≤ (h.hours_open : ℚ) * 60
        · rw [if_pos hwin] at hmem
          rcases List.mem_append.mp hmem with h1 | h1
          · exact Or.inl h1
          · right
            obtain rfl : p = nv := List.mem_singleton.mp h1
            exact ⟨s, hst, hle, hdep⟩
        · rw [if_neg hwin] at hmem
          exact Or.inl hmem
      · exact Or.inr hgood

/-- Every pool state reached during a run satisfies the invariant and keeps
the configured capacity. -/
theorem Hospital.simStates_inv (h : Hospital) :
    ∀ (draws : List (ℚ × ℚ)) (base_voter : Patient) (b : Bed), BedInv b →
      ∀ b2 ∈ h.simStates draws base_voter b, BedInv b2 ∧ b2.maxsize = b.maxsize
  | [], _, b, hinv => by
    intro b2 hb2
    simp only [Hospital.simStates, List.mem_singleton] at hb2
    subst hb2
    exact ⟨hinv, rfl⟩
  | draw :: rest, base_voter, b, hinv => by
    intro b2 hb2
    obtain ⟨nv, bb, hstep, hinv2, hmax, -⟩ :=
      h.simStep_spec draw base_voter b hinv
    simp only [Hospital.simStates, hstep] at hb2
    rcases List.mem_cons.mp hb2 with rfl | hb2
    · exact ⟨hinv, rfl⟩
    · obtain ⟨hi, hm⟩ := h.simStates_inv rest nv bb hinv2 b2 hb2
      exact ⟨hi, hm.trans hmax⟩

/-- When the pool is roomy enough to absorb every remaining draw, the full
branch is never taken and all seated patients start at their arrival time. -/
theorem Hospital.simAux_no_wait (h : Hospital) :
    ∀ (draws : List (ℚ × ℚ)) (base_voter : Patient) (b : Bed)
      (acc : List Patient),
      b.bed_queue.length + draws.length ≤ b.maxsize ∨ draws = [] →
      (∀ p ∈ acc, p.start_time = some p.arrival_time) →
      ∃ res, h.simAux draws base_voter b acc = some res ∧
        ∀ p ∈ res, p.start_time = some p.arrival_time
  | [], _, _, acc, _, hacc => ⟨acc, rfl, hacc⟩
  | draw :: rest, base_voter, b, acc, hcap, hacc => by
    have hlen : b.bed_queue.length + (rest.length + 1) ≤ b.maxsize := by
      rcases hcap with hcap | hcap
      · simpa using hcap
      · simp at hcap
    have hf : b.check_full = false := by
      simp only [Bed.check_full, decide_eq_false_iff_not, not_and, not_le]
      intro _
      omega
    have hstep := h.simStep_not_full draw base_voter b hf
    obtain ⟨res, hres, hprop⟩ := h.simAux_no_wait rest
      ⟨base_voter.arrival_time + draw.1, draw.2,
       some (base_voter.arrival_time + draw.1),
       some (base_voter.arrival_time + draw.1 + draw.2)⟩
      ⟨b.bed_queue.orderedInsert (· ≤ ·)
         (base_voter.arrival_time + draw.1 + draw.2), b.maxsize⟩
      (if (base_voter.arrival_time + draw.1 : ℚ) ≤ (h.hours_open : ℚ) * 60
        then acc ++ [⟨base_voter.arrival_time + draw.1, draw.2,
          some (base_voter.arrival_time + draw.1),
          some (base_voter.arrival_time + draw.1 + draw.2)⟩]
        else acc)
      (by
        left
        dsimp only
        rw [List.orderedInsert_length]
        omega)
      (by
        intro p hp
        by_cases hwin :
            (base_voter.arrival_time + draw.1 : ℚ) ≤ (h.hours_open : ℚ) * 60
        · rw [if_pos hwin] at hp
          rcases List.mem_append.mp hp with h1 | h1
          · exact hacc p h1
          · obtain rfl := List.mem_singleton.mp h1
            rfl
        · rw [if_neg hwin] at hp
          exact hacc p hp)
    refine ⟨res, ?_, hprop⟩
    simp only [Hospital.simAux, hstep, Option.bind_eq_bind, Option.some_bind]
    exact hres

theorem Hospital.generated_length (h : Hospital) :
    ∀ (draws : List (ℚ × ℚ)) (prev : Patient),
      (h.generated draws prev).length = draws.length
  | [], _ => rfl
  | _ :: rest, prev => by
    simp [Hospital.generated, h.generated_length rest]

/-- Generation only reads the previous arrival time. -/
theorem Hospital.generated_congr (h : Hospital) :
    ∀ (draws : List (ℚ × ℚ)) (p q : Patient),
      p.arrival_time = q.arrival_time →
      h.generated draws p = h.generated draws q
  | [], _, _, _ => rfl
  | draw :: rest, p, q, hpq => by
    have hnv : h.next_voter draw p = h.next_voter draw q := by
      simp [Hospital.next_voter, Patient.mk0, hpq]
    simp only [Hospital.generated, hnv]

/-- Projected onto (arrival time, duration), the recorded list of a run is
the accumulated prefix followed by the in-window filter of the raw generated
sequence: every generated patient past closing is skipped but still drives
the generation of its successors. -/
theorem Hospital.simAux_proj (h : Hospital) :
    ∀ (draws : List (ℚ × ℚ)) (base_voter : Patient) (b : Bed)
      (acc : List Patient), BedInv b →
      ∃ res, h.simAux draws base_voter b acc = some res ∧
        res.map (fun p => (p.arrival_time, p.voting_duration)) =
          acc.map (fun p => (p.arrival_time, p.voting_duration)) ++
          ((h.generated draws base_voter).filter
            (fun p => decide (p.arrival_time ≤ (h.hours_open : ℚ) * 60))).map
            (fun p => (p.arrival_time, p.voting_duration))
  | [], _, _, acc, _ => ⟨acc, rfl, by simp [Hospital.generated]⟩
  | draw :: rest, base_voter, b, acc, hinv => by
    obtain ⟨nv, b2, hstep, hinv2, -, -, harr, hdur, -⟩ :=
      h.simStep_spec draw base_voter b hinv
    have harr0 : nv.arrival_time =
        (h.next_voter draw base_voter).arrival_time := harr
    have hdur0 : nv.voting_duration =
        (h.next_voter draw base_voter).voting_duration := hdur
    obtain ⟨res, hres, hproj⟩ := h.simAux_proj rest nv b2
      (if nv.arrival_time ≤ (h.hours_open : ℚ) * 60 then acc ++ [nv] else acc)
      hinv2
    refine ⟨res, ?_, ?_⟩
    · simp only [Hospital.simAux, hstep, Option.bind_eq_bind, Option.some_bind]
      exact hres
    · rw [hproj]
      have hgen : h.generated (draw :: rest) base_voter =
          h.next_voter draw base_voter :: h.generated rest nv := by
        simp only [Hospital.generated]
        rw [h.generated_congr rest (h.next_voter draw base_voter) nv harr0.symm]
      rw [hgen]
      by_cases hwin : nv.arrival_time ≤ (h.hours_open : ℚ) * 60
      · rw [if_pos hwin, List.filter_cons_of_pos (by
          simpa [decide_eq_true_iff] using harr0 ▸ hwin)]
        simp [harr0, hdur0]
      · rw [if_neg hwin, List.filter_cons_of_neg (by
          simp only [decide_eq_true_eq]
          rw [← harr0]
          exact hwin)]

theorem collect_waits_eq :
    ∀ (l : List Patient), (∀ p ∈ l, p.start_time.isSome) →
      collect_waits l =
        some (l.map (fun p => p.start_time.getD 0 - p.arrival_time))
  | [], _ => rfl
  | v :: rest, hs => by
    obtain ⟨s, hv⟩ :=
      Option.isSome_iff_exists.mp (hs v (List.mem_cons_self v rest))
    have hrest :=
      collect_waits_eq rest (fun p hp => hs p (List.mem_cons_of_mem v hp))
    simp only [collect_waits, hv, hrest, Option.bind_eq_bind,
      Option.some_bind, List.map_cons, Option.some.injEq]
    simp [hv]

/-- On a nonempty list of seated patients the trial average is exactly the
spec-side mean wait. -/
theorem trial_average_eq (l : List Patient) (hne : l ≠ [])
    (hs : ∀ p ∈ l, p.start_time.isSome) :
    trial_average l = some (mean_wait l) := by
  have hc := collect_waits_eq l hs
  simp only [trial_average, hc, Option.bind_eq_bind, Option.some_bind]
  rw [if_neg (fun h0 => hne (List.length_eq_zero.mp h0))]
  rfl

/-- The trial loop computes, in order, one average per remaining trial, the
trial at offset `i` using seed `seed + i`. -/
theorem trialsAux_eq (draws : ℕ → ℕ → ℚ × ℚ) (hospital : Hospital)
    (num_beds : ℕ) (f : ℕ → ℚ) :
    ∀ (n seed : ℕ) (acc : List ℚ),
      (∀ i < n, ∃ pl, hospital.simulate draws (seed + i) num_beds = some pl ∧
        trial_average pl = some (f (seed + i))) →
      trialsAux draws hospital num_beds n seed acc =
        some (acc ++ (List.range n).map (fun i => f (seed + i)))
  | 0, seed, acc, _ => by simp [trialsAux]
  | n + 1, seed, acc, hyp => by
    obtain ⟨pl, hsim, havg⟩ := hyp 0 (Nat.succ_pos n)
    rw [Nat.add_zero] at hsim havg
    have hyp2 : ∀ i < n, ∃ pl,
        hospital.simulate draws (seed + 1 + i) num_beds = some pl ∧
        trial_average pl = some (f (seed + 1 + i)) := by
      intro i hi
      obtain ⟨pl2, h1, h2⟩ := hyp (i + 1) (Nat.succ_lt_succ hi)
      rw [show seed + (i + 1) = seed + 1 + i by omega] at h1 h2
      exact ⟨pl2, h1, h2⟩
    have hrec := trialsAux_eq draws hospital num_beds f n (seed + 1)
      (acc ++ [f seed]) hyp2
    simp only [trialsAux, hsim, havg, Option.bind_eq_bind, Option.some_bind]
    rw [hrec]
    congr 1
    rw [List.append_assoc]
    congr 1
    rw [List.range_succ_eq_map]
    simp only [List.map_cons, List.map_map, Nat.add_zero,
      List.singleton_append]
    congr 1
    refine List.map_congr_left fun i _ => ?_
    simp only [Function.comp_apply]
    congr 1
    omega

/-- If some trial within range simulates to an empty in-window list, the
whole trial loop fails. -/
theorem trialsAux_none (draws : ℕ → ℕ → ℚ × ℚ) (hospital : Hospital)
    (num_beds : ℕ) :
    ∀ (n seed : ℕ) (acc : List ℚ) (i : ℕ), i < n →
      hospital.simulate draws (seed + i) num_beds = some [] →
      trialsAux draws hospital num_beds n seed acc = none
  | 0, _, _, i, hi, _ => absurd hi (Nat.not_lt_zero i)
  | n + 1, seed, acc, 0, _, hempty => by
    rw [Nat.add_zero] at hempty
    simp [trialsAux, hempty, trial_average, collect_waits]
  | n + 1, seed, acc, i + 1, hi, hempty => by
    cases hsim : hospital.simulate draws seed num_beds with
    | none => simp [trialsAux, hsim]
    | some pl =>
      cases havg : trial_average pl with
      | none => simp [trialsAux, hsim, havg]
      | some a =>
        have hrec := trialsAux_none draws hospital num_beds n (seed + 1)
          (acc ++ [a]) i (by omega)
          (by rw [show seed + 1 + i = seed + (i + 1) by omega]; exact hempty)
        simp only [trialsAux, hsim, havg, Option.bind_eq_bind,
          Option.some_bind]
        exact hrec

/-- The capacity sweep returns the first level whose average beats the
target, or the sentinel, provided every tested level's trial run succeeds. -/
theorem boothsLoop_eq (target_wait_time : ℚ) (w : ℕ → ℚ) :
    ∀ (l : List ℕ) (f : ℕ → Option ℚ),
      (∀ nb ∈ l, f nb = some (w nb)) →
      boothsLoop f target_wait_time l =
        some (match l.find? (fun nb => decide (w nb < target_wait_time)) with
              | some nb => (nb, some (w nb))
              | none => (0, none))
  | [], f, _ => by simp [boothsLoop]
  | nb :: rest, f, hf => by
    have h1 := hf nb (List.mem_cons_self nb rest)
    by_cases hlt : w nb < target_wait_time
    · rw [List.find?_cons_of_pos _ (by simpa using hlt)]
      simp only [boothsLoop, h1, Option.bind_eq_bind, Option.some_bind,
        if_pos hlt]
    · rw [List.find?_cons_of_neg _ (by simpa using hlt)]
      have hrec := boothsLoop_eq target_wait_time w rest f
        (fun x hx => hf x (List.mem_cons_of_mem nb hx))
      simp only [boothsLoop, h1, Option.bind_eq_bind, Option.some_bind,
        if_neg hlt]
      exact hrec

/-- A full pool holds at least one pending departure. -/
theorem Bed.exists_cons_of_full (b : Bed) (hf : b.check_full = true) :
    ∃ d rest, b.bed_queue = d :: rest := by
  have hfull : 0 < b.maxsize ∧ b.maxsize ≤ b.bed_queue.length := by
    simpa [Bed.check_full] using hf
  cases hq : b.bed_queue with
  | nil =>
    exfalso
    have h1 := hfull.1
    have h2 := hfull.2
    rw [hq] at h2
    simp at h2
    omega
  | cons d rest => exact ⟨d, rest, rfl⟩

/-- Claim C3: every patient recorded by a run is seated no earlier than its
arrival and departs exactly `voting_duration` after starting (stated, as in
the claim, for non-negative supplied gaps and durations; the proof does not
even need that assumption). -/
theorem claim_C3_start_after_arrival (h : Hospital) (draws : ℕ → ℕ → ℚ × ℚ)
    (seed num_booths : ℕ) (hgap : ∀ i, 0 ≤ (draws seed i).1)
    (hdur : ∀ i, 0 ≤ (draws seed i).2) :
    ∃ res, h.simulate draws seed num_booths = some res ∧
      ∀ p ∈ res, ∃ s, p.start_time = some s ∧ p.arrival_time ≤ s ∧
        p.departure_time = some (s + p.voting_duration) := by
  obtain ⟨res, hres, hprop⟩ := h.simAux_spec
    ((List.range h.max_num_voters).map (draws seed)) (Patient.mk0 0 0)
    ⟨[], num_booths⟩ [] ⟨List.sorted_nil, fun _ => Nat.zero_le _⟩
  exact ⟨res, hres, fun p hp => (hprop p hp).resolve_left (List.not_mem_nil p)⟩

/-- Claim C3 witness at a concrete configuration. -/
theorem claim_C3_witness :
    (∀ i, 0 ≤ (exDraws0 0 i).1) ∧ (∀ i, 0 ≤ (exDraws0 0 i).2) ∧
    ∃ res, exHospital.simulate exDraws0 0 1 = some res ∧
      ∀ p ∈ res, ∃ s, p.start_time = some s ∧ p.arrival_time ≤ s ∧
        p.departure_time = some (s + p.voting_duration) :=
  ⟨fun _ => le_refl 0, fun _ => le_refl 0,
   claim_C3_start_after_arrival exHospital exDraws0 0 1
     (fun _ => le_refl 0) (fun _ => le_refl 0)⟩

/-- Claim C4: one iteration with a full pool pops the earliest pending
departure `d` and seats the arrival at `arrival_time` if `arrival_time > d`
and at `d` otherwise; with a non-full pool it seats at `arrival_time`; in
both cases the new departure time `start + duration` is pushed into the
pool. -/
theorem claim_C4_step_branches (h : Hospital) (draw : ℚ × ℚ)
    (base_voter : Patient) (b : Bed) (hinv : BedInv b) :
    ∃ nv b2, h.simStep draw base_voter b = some (nv, b2) ∧
      ∃ s, nv.start_time = some s ∧
        nv.departure_time = some (s + nv.voting_duration) ∧
        (s + nv.voting_duration) ∈ b2.bed_queue ∧
        (b.check_full = true →
          ∃ d b1, b.get_remove_voter_dep = some (d, b1) ∧
            (∀ x ∈ b.bed_queue, d ≤ x) ∧
            s = if nv.arrival_time > d then nv.arrival_time else d) ∧
        (b.check_full = false → s = nv.arrival_time) := by
  obtain ⟨hsort, hlen⟩ := hinv
  by_cases hf : b.check_full = true
  · obtain ⟨d, rest, hq⟩ := b.exists_cons_of_full hf
    have hfull : 0 < b.maxsize ∧ b.maxsize ≤ b.bed_queue.length := by
      simpa [Bed.check_full] using hf
    have hqlen : b.bed_queue.length = b.maxsize :=
      le_antisymm (hlen hfull.1) hfull.2
    have hrest_len : rest.length + 1 = b.maxsize := by
      rw [hq] at hqlen
      simpa using hqlen
    have hnf2 : Bed.check_full ⟨rest, b.maxsize⟩ = false := by
      simp only [Bed.check_full, decide_eq_false_iff_not, not_and, not_le]
      intro _
      omega
    rw [h.simStep_full_eq draw base_voter b d rest hq hf hnf2]
    refine ⟨_, _, rfl, _, rfl, rfl, ?_, ?_, ?_⟩
    · exact (List.mem_orderedInsert _).mpr (Or.inl rfl)
    · intro _
      refine ⟨d, ⟨rest, b.maxsize⟩, ?_, ?_, rfl⟩
      · simp [Bed.get_remove_voter_dep, hq]
      · exact b.get_remove_is_min hsort d ⟨rest, b.maxsize⟩
          (by simp [Bed.get_remove_voter_dep, hq])
    · intro hc
      rw [hf] at hc
      exact absurd hc (by decide)
  · have hf2 : b.check_full = false := by simpa using hf
    rw [h.simStep_not_full draw base_voter b hf2]
    refine ⟨_, _, rfl, _, rfl, rfl, ?_, ?_, ?_⟩
    · exact (List.mem_orderedInsert _).mpr (Or.inl rfl)
    · intro hc
      rw [hf2] at hc
      exact absurd hc (by decide)
    · intro _
      rfl

/-- Claim C4 witness: a concrete full pool of capacity one. -/
theorem claim_C4_witness :
    BedInv ⟨[5], 1⟩ ∧
    ∃ nv b2, exHospital.simStep (0, 0) (Patient.mk0 0 0) ⟨[5], 1⟩ =
        some (nv, b2) ∧
      ∃ s, nv.start_time = some s ∧
        nv.departure_time = some (s + nv.voting_duration) ∧
        (s + nv.voting_duration) ∈ b2.bed_queue ∧
        ((Bed.mk [5] 1).check_full = true →
          ∃ d b1, (Bed.mk [5] 1).get_remove_voter_dep = some (d, b1) ∧
            (∀ x ∈ (Bed.mk [5] 1).bed_queue, d ≤ x) ∧
            s = if nv.arrival_time > d then nv.arrival_time else d) ∧
        ((Bed.mk [5] 1).check_full = false → s = nv.arrival_time) :=
  ⟨⟨by decide, by decide⟩,
   claim_C4_step_branches exHospital (0, 0) (Patient.mk0 0 0) ⟨[5], 1⟩
     ⟨by decide, by decide⟩⟩

/-- Claim C5: throughout a run with positive capacity, every booth-pool
state (initial and after each iteration; the mid-iteration popped state has
strictly fewer entries than its successor) holds at most `num_booths`
pending departures and stays sorted, and retrieval from a sorted pool always
yields the minimum pending departure time. -/
theorem claim_C5_pool_invariant (h : Hospital) (draws : ℕ → ℕ → ℚ × ℚ)
    (seed num_booths : ℕ) (hpos : 0 < num_booths) :
    (∀ b ∈ h.simStates ((List.range h.max_num_voters).map (draws seed))
        (Patient.mk0 0 0) ⟨[], num_booths⟩,
      b.bed_queue.length ≤ num_booths ∧ b.bed_queue.Sorted (· ≤ ·)) ∧
    (∀ b : Bed, b.bed_queue.Sorted (· ≤ ·) →
      ∀ d b2, b.get_remove_voter_dep = some (d, b2) →
        ∀ x ∈ b.bed_queue, d ≤ x) := by
  constructor
  · intro b hb
    obtain ⟨⟨hsorted, hblen⟩, hmax⟩ := h.simStates_inv
      ((List.range h.max_num_voters).map (draws seed)) (Patient.mk0 0 0)
      ⟨[], num_booths⟩ ⟨List.sorted_nil, fun _ => Nat.zero_le _⟩ b hb
    have hm2 : b.maxsize = num_booths := hmax
    refine ⟨?_, hsorted⟩
    rw [← hm2]
    exact hblen (by rw [hm2]; exact hpos)
  · intro b hs d b2 hget
    exact b.get_remove_is_min hs d b2 hget

/-- Claim C5 witness at a concrete configuration. -/
theorem claim_C5_witness :
    0 < 1 ∧
    ((∀ b ∈ exHospital.simStates
        ((List.range exHospital.max_num_voters).map (exDraws0 0))
        (Patient.mk0 0 0) ⟨[], 1⟩,
      b.bed_queue.length ≤ 1 ∧ b.bed_queue.Sorted (· ≤ ·)) ∧
    (∀ b : Bed, b.bed_queue.Sorted (· ≤ ·) →
      ∀ d b2, b.get_remove_voter_dep = some (d, b2) →
        ∀ x ∈ b.bed_queue, d ≤ x)) :=
  ⟨Nat.one_pos, claim_C5_pool_invariant exHospital exDraws0 0 1 Nat.one_pos⟩

/-- Claim C6: a run always performs exactly `max_num_voters` generation
iterations; projected onto (arrival time, duration) the recorded list is
exactly the in-window (`arrival_time <= hours_open * 60`) filter of the raw
generated sequence, whose out-of-window members were still generated and
still seeded the generation of their successors. -/
theorem claim_C6_generation_budget (h : Hospital) (draws : ℕ → ℕ → ℚ × ℚ)
    (seed num_booths : ℕ) :
    (h.generated ((List.range h.max_num_voters).map (draws seed))
        (Patient.mk0 0 0)).length = h.max_num_voters ∧
    ∃ res, h.simulate draws seed num_booths = some res ∧
      res.map (fun p => (p.arrival_time, p.voting_duration)) =
        ((h.generated ((List.range h.max_num_voters).map (draws seed))
            (Patient.mk0 0 0)).filter
          (fun p => decide (p.arrival_time ≤ (h.hours_open : ℚ) * 60))).map
          (fun p => (p.arrival_time, p.voting_duration)) := by
  constructor
  · rw [h.generated_length]
    simp
  · obtain ⟨res, hres, hproj⟩ := h.simAux_proj
      ((List.range h.max_num_voters).map (draws seed)) (Patient.mk0 0 0)
      ⟨[], num_booths⟩ [] ⟨List.sorted_nil, fun _ => Nat.zero_le _⟩
    exact ⟨res, hres, by simpa using hproj⟩

/-- Claim C7: when the capacity is at least the generation budget the pool
never reports full, so every recorded patient starts exactly at its arrival
time. -/
theorem claim_C7_unbounded_capacity_no_wait (h : Hospital)
    (draws : ℕ → ℕ → ℚ × ℚ) (seed num_booths : ℕ)
    (hcap : h.max_num_voters ≤ num_booths) :
    ∃ res, h.simulate draws seed num_booths = some res ∧
      ∀ p ∈ res, p.start_time = some p.arrival_time := by
  obtain ⟨res, hres, hprop⟩ := h.simAux_no_wait
    ((List.range h.max_num_voters).map (draws seed)) (Patient.mk0 0 0)
    ⟨[], num_booths⟩ [] (Or.inl (by simpa using hcap))
    (fun p hp => absurd hp (List.not_mem_nil p))
  exact ⟨res, hres, hprop⟩

/-- Claim C7 witness at a concrete configuration. -/
theorem claim_C7_witness :
    exHospital.max_num_voters ≤ 2 ∧
    ∃ res, exHospital.simulate exDraws0 0 2 = some res ∧
      ∀ p ∈ res, p.start_time = some p.arrival_time :=
  ⟨by decide,
   claim_C7_unbounded_capacity_no_wait exHospital exDraws0 0 2 (by decide)⟩

/-- Claim C8: under the engine's call ordering the pool's error branches are
unreachable — the whole run returns normally (`isSome`), so `put` is never
attempted on a full pool and `get` never on an empty one — for every
positive capacity. -/
theorem claim_C8_no_pool_errors (h : Hospital) (draws : ℕ → ℕ → ℚ × ℚ)
    (seed num_booths : ℕ) (hpos : 0 < num_booths) :
    (h.simulate draws seed num_booths).isSome := by
  obtain ⟨res, hres, -⟩ := h.simAux_spec
    ((List.range h.max_num_voters).map (draws seed)) (Patient.mk0 0 0)
    ⟨[], num_booths⟩ [] ⟨List.sorted_nil, fun _ => Nat.zero_le _⟩
  rw [Hospital.simulate, hres]
  rfl

/-- Claim C8 witness at a concrete configuration. -/
theorem claim_C8_witness :
    0 < 1 ∧ (exHospital.simulate exDraws1 0 1).isSome :=
  ⟨Nat.one_pos, claim_C8_no_pool_errors exHospital exDraws1 0 1 Nat.one_pos⟩

/-- Claim C1: the capacity sweep tests `num_beds` over `[1, ..., max]`
(`List.range' 1 max_num_beds`), invoking the trial runner with the same
starting seed at every level, and returns the first pair whose median
average wait is strictly below the target, or the sentinel `(0, None)` if no
tested level qualifies (stated for runs in which every tested level's trial
runner returns a value `w num_beds`). -/
theorem claim_C1_first_feasible_capacity (draws : ℕ → ℕ → ℚ × ℚ)
    (hospital : Hospital) (target_wait_time : ℚ)
    (max_num_beds ntrials seed : ℕ) (w : ℕ → ℚ)
    (hw : ∀ nb ∈ List.range' 1 max_num_beds,
      find_avg_wait_time draws hospital nb ntrials seed = some (w nb)) :
    find_number_of_booths draws hospital target_wait_time max_num_beds
        ntrials seed =
      some (match (List.range' 1 max_num_beds).find?
              (fun nb => decide (w nb < target_wait_time)) with
            | some nb => (nb, some (w nb))
            | none => (0, none)) :=
  boothsLoop_eq target_wait_time w (List.range' 1 max_num_beds)
    (fun num_beds => find_avg_wait_time draws hospital num_beds ntrials seed)
    hw

/-- Claim C1 witness: with zero draws the first tested level already beats
the target. -/
theorem claim_C1_witness :
    find_number_of_booths exDraws0 exHospital 1 2 1 0 = some (1, some 0) :=
  (claim_C1_first_feasible_capacity exDraws0 exHospital 1 2 1 0 (fun _ => 0)
    (by with_unfolding_all decide)).trans (by with_unfolding_all decide)

/-- Claim C2: `find_avg_wait_time` runs `ntrials` simulations, trial `i`
using seed `initial_seed + i`; each trial's average is the mean of
`start_time - arrival_time` over its recorded arrivals; the result is the
entry at index `ntrials / 2` of the ascending-sorted list of those averages
(the upper-middle element, not an interpolated median). -/
theorem claim_C2_median_of_trials (draws : ℕ → ℕ → ℚ × ℚ)
    (hospital : Hospital) (num_beds ntrials initial_seed : ℕ)
    (pls : ℕ → List Patient)
    (hsim : ∀ i < ntrials, hospital.simulate draws (initial_seed + i)
      num_beds = some (pls (initial_seed + i)))
    (hne : ∀ i < ntrials, pls (initial_seed + i) ≠ [])
    (hsome : ∀ i < ntrials, ∀ p ∈ pls (initial_seed + i),
      p.start_time.isSome) :
    find_avg_wait_time draws hospital num_beds ntrials initial_seed =
      (((List.range ntrials).map
          (fun i => mean_wait (pls (initial_seed + i)))).insertionSort
        (· ≤ ·))[ntrials / 2]? := by
  have ht := trialsAux_eq draws hospital num_beds
    (fun s => mean_wait (pls s)) ntrials initial_seed []
    (fun i hi => ⟨pls (initial_seed + i), hsim i hi,
      trial_average_eq _ (hne i hi) (hsome i hi)⟩)
  simp only [find_avg_wait_time, ht, Option.bind_eq_bind, Option.some_bind,
    List.nil_append]

/-- Claim C2 witness at a concrete configuration. -/
theorem claim_C2_witness :
    find_avg_wait_time exDraws0 exHospital 1 1 0 = some 0 :=
  (claim_C2_median_of_trials exDraws0 exHospital 1 1 0
    (fun _ => [⟨0, 0, some 0, some 0⟩])
    (by with_unfolding_all decide) (by decide) (by decide)).trans
    (by with_unfolding_all decide)

/-- Claim C9: if some trial within range records zero in-window arrivals,
the per-trial average divides by zero and `find_avg_wait_time` fails
(returns no value). -/
theorem claim_C9_zero_arrivals_divzero (draws : ℕ → ℕ → ℚ × ℚ)
    (hospital : Hospital) (num_beds ntrials initial_seed i : ℕ)
    (hi : i < ntrials)
    (hempty : hospital.simulate draws (initial_seed + i) num_beds =
      some []) :
    find_avg_wait_time draws hospital num_beds ntrials initial_seed =
      none := by
  have ht := trialsAux_none draws hospital num_beds ntrials initial_seed []
    i hi hempty
  simp only [find_avg_wait_time, ht, Option.bind_eq_bind, Option.none_bind]

/-- Claim C9 witness: a zero-length window records no arrivals and the trial
runner fails. -/
theorem claim_C9_witness :
    0 < 1 ∧ find_avg_wait_time exDraws1 exHospital0 1 1 0 = none :=
  ⟨Nat.one_pos, claim_C9_zero_arrivals_divzero exDraws1 exHospital0 1 1 0 0
    Nat.one_pos (by with_unfolding_all decide)⟩

/-- Claim C10: with `ntrials = 0` the loop contributes no averages and
indexing the empty sorted list at `0 / 2 = 0` fails, so `find_avg_wait_time`
never returns a value — `ntrials >= 1` is an implicit precondition. -/
theorem claim_C10_zero_trials_fails (draws : ℕ → ℕ → ℚ × ℚ)
    (hospital : Hospital) (num_beds initial_seed : ℕ) :
    find_avg_wait_time draws hospital num_beds 0 initial_seed = none := rfl
